import Mathlib

/-!
Verification development for the Danet-Database repository abstraction.

The repository provides two CRUD implementations over external stores:

* `src/kv/repository.ts` — `KvRepository<T extends { _id: string }>` over an
  ordered key-value store (Deno.Kv) with caller-defined secondary index keys,
  maintained in one atomic transaction per write;
* `src/mongodb/repository.ts` — `MongodbRepository<T>` over a document store
  with native object identifiers normalized to strings at the boundary.

The store clients themselves are external collaborators; they are embedded
here by their contract: the key-value store is a finite map from keys (lists
of string segments) to entity values, an atomic transaction applies a list of
set/delete mutations all-or-nothing, and each `commit` reports whether it
applied (modelled by an explicit `commitOk : Bool` argument, the store's
decision).  The store is represented as an association list with unique keys;
entries are kept in insertion order (the real store orders keys
lexicographically; no property below depends on enumeration order).
-/

/-- A Deno.KvKey: an ordered sequence of string segments. -/
abbrev KvKey := List String

/-- The key-value store's state: an association list of key/value entries. -/
abbrev KvStore (T : Type) := List (KvKey × T)

/-- Lookup of the value stored at a key (the `value` of `Deno.Kv.get`;
`none` stands for the null value of an absent entry). -/
def kvGet {T : Type} (k : KvKey) : KvStore T → Option T
  | [] => none
  | e :: rest => if e.1 = k then some e.2 else kvGet k rest

/-- Setting a key: replaces the entry if the key is present, otherwise
appends a new entry. -/
def kvSet {T : Type} (k : KvKey) (v : T) : KvStore T → KvStore T
  | [] => [(k, v)]
  | e :: rest => if e.1 = k then (k, v) :: rest else e :: kvSet k v rest

/-- Deleting a key: removes every entry stored under it. -/
def kvDelete {T : Type} (k : KvKey) : KvStore T → KvStore T
  | [] => []
  | e :: rest => if e.1 = k then kvDelete k rest else e :: kvDelete k rest

/-- `keyHasPrefix p k` holds when the segment list `p` is an initial segment
of the key `k` (the prefix selector of `Deno.Kv.list`). -/
def keyHasPrefix : KvKey → KvKey → Bool
  | [], _ => true
  | _ :: _, [] => false
  | p :: ps, k :: ks => decide (p = k) && keyHasPrefix ps ks

/-- `Deno.Kv.list { prefix }`: all entries whose key extends the prefix, in
store order. -/
def kvList {T : Type} (p : KvKey) (s : KvStore T) : KvStore T :=
  s.filter (fun e => keyHasPrefix p e.1)

/-- One mutation of an atomic transaction. -/
inductive KvMutation (T : Type) where
  | set (k : KvKey) (v : T)
  | del (k : KvKey)
deriving DecidableEq

/-- Apply one mutation to the store. -/
def applyMut {T : Type} (m : KvMutation T) (s : KvStore T) : KvStore T :=
  match m with
  | .set k v => kvSet k v s
  | .del k => kvDelete k s

/-- Apply the mutations of a committed atomic transaction, in order. -/
def applyMuts {T : Type} : List (KvMutation T) → KvStore T → KvStore T
  | [], s => s
  | m :: ms, s => applyMuts ms (applyMut m s)

/-- A transaction that sets every key of `ks` to the same value `v`, in
order (the shape built by `create` and `updateOne`). -/
def setAll {T : Type} (ks : List KvKey) (v : T) : List (KvMutation T) :=
  ks.map (fun k => KvMutation.set k v)

/-- A transaction that deletes every key of `ks`, in order (the shape built
by `deleteOne`). -/
def delAll {T : Type} (ks : List KvKey) : List (KvMutation T) :=
  ks.map (fun k => KvMutation.del k)

/- ### The KV repository (`src/kv/repository.ts`) -/

/-- The state a `KvRepository<T>` subclass closes over: its collection name
and the `getSecondaryKeys` override (a record from index names to keys; the
base-class default is the empty record), together with the `_id` accessor of
the entity type `T extends { _id: string }`. -/
structure KvRepo (T : Type) where
  collectionName : String
  getSecondaryKeys : T → List (String × KvKey)
  idOf : T → String

/-- Errors surfaced by the repository (`"Could create entity"`,
`"Could update entity"`). -/
inductive DbError where
  | createFailed
  | updateFailed
deriving DecidableEq

/-- The keys written (resp. deleted) by one repository transaction on
`item`: the primary key `[collection, item._id]` first, then the value of
each `getSecondaryKeys(item)` entry, in record order — exactly the loop of
`create`, `updateOne` and `deleteOne`. -/
def txKeys {T : Type} (R : KvRepo T) (item : T) : List KvKey :=
  [R.collectionName, R.idOf item] :: (R.getSecondaryKeys item).map (fun p => p.2)

/-- `getAll()`: the value of every entry whose key has the collection name
as prefix. -/
def KvRepository.getAll {T : Type} (R : KvRepo T) (s : KvStore T) : List T :=
  (kvList [R.collectionName] s).map (fun e => e.2)

/-- `getById(id)`: `undefined` when `id` is falsy (the empty string),
otherwise the value stored at `[collection, id]` (`null`, i.e. `none`, when
absent — the `if (item)` test in the source is on the always-truthy entry
wrapper, not on the value). -/
def KvRepository.getById {T : Type} (R : KvRepo T) (id : String) (s : KvStore T) :
    Option T :=
  if id = "" then none else kvGet [R.collectionName, id] s

/-- `create(item)`: one atomic transaction setting the primary key and every
secondary key to `item`; `commitOk` is the store's all-or-nothing commit
outcome.  On failure the error `"Could create entity"` is thrown and nothing
is written. -/
def KvRepository.create {T : Type} (R : KvRepo T) (item : T) (s : KvStore T)
    (commitOk : Bool) : Except DbError T × KvStore T :=
  if commitOk then (.ok item, applyMuts (setAll (txKeys R item) item) s)
  else (.error .createFailed, s)

/-- `deleteOne(itemId)`: looks the item up via `getById`; returns at once if
that is absent, otherwise commits one atomic transaction deleting the primary
key and every secondary key of the stored item.  The commit result is
discarded, so the operation never raises. -/
def KvRepository.deleteOne {T : Type} (R : KvRepo T) (itemId : String)
    (s : KvStore T) (commitOk : Bool) : Except DbError Unit × KvStore T :=
  match KvRepository.getById R itemId s with
  | none => (.ok (), s)
  | some item =>
      if commitOk then (.ok (), applyMuts (delAll (txKeys R item)) s)
      else (.ok (), s)

/-- `updateOne(itemId, item)`: reads the raw entry at `[collection, itemId]`
and spreads the entry wrapper under the fields of `item`; `item` is spread
last, so every entity field of the merged value comes from `item` — at the
entity level the value written is `item` itself (the wrapper's
key/value/versionstamp properties are not part of the entity type and are
unobservable through the typed interface).  The write then goes, atomically,
to the primary key `[collection, item._id]` and to every secondary key of
`item`; on commit failure the error `"Could update entity"` is thrown and
nothing is written. -/
def KvRepository.updateOne {T : Type} (R : KvRepo T) (itemId : String) (item : T)
    (s : KvStore T) (commitOk : Bool) : Except DbError T × KvStore T :=
  let itemToInsert := item
  if commitOk then
    (.ok itemToInsert, applyMuts (setAll (txKeys R item) itemToInsert) s)
  else (.error .updateFailed, s)

/-- `deleteAll()`: iterates every entry whose key has the collection name as
prefix and issues one unbatched delete per entry. -/
def KvRepository.deleteAll {T : Type} (R : KvRepo T) (s : KvStore T) : KvStore T :=
  (kvList [R.collectionName] s).foldl (fun acc e => kvDelete e.1 acc) s

/- ### Concrete instantiations -/

/-- The entity of the spec's concrete scenario (§8): a user with a
caller-supplied string `_id` and an `email` field. -/
structure User where
  _id : String
  email : String
deriving DecidableEq

/-- The spec's concrete scenario repository: collection `"users"` with one
secondary index on `"email"`, keys in the `[collection, field, value]`
shape. -/
def userRepo : KvRepo User where
  collectionName := "users"
  getSecondaryKeys := fun u => [("email", ["users", "email", u.email])]
  idOf := User._id

/-- A legal `KvRepository` subclass whose `getSecondaryKeys` override
returns a two-segment key that lives in the primary keyspace of the
collection (nothing in the source constrains the shape of secondary
keys). -/
def collidingRepo : KvRepo User where
  collectionName := "users"
  getSecondaryKeys := fun _ => [("weird", ["users", "zz"])]
  idOf := User._id

/- ### The document repository (`src/mongodb/repository.ts`) -/

/-- The document store's native identifier (the external driver's ObjectId),
opaque to callers.  Its 24-hex-character string form is abstracted to an
injective nonempty encoding with a partial inverse
(`oidToString`/`oidOfString`); the repository only relies on this
print/parse contract. -/
structure MongoObjectId where
  n : Nat
deriving DecidableEq

/-- The string form of a native identifier (`ObjectId.prototype.toString`). -/
def oidToString (o : MongoObjectId) : String :=
  String.mk (List.replicate (o.n + 1) 'x')

/-- `new ObjectId(id)` applied to a string: `none` models the
InvalidIdentifier throw on a malformed encoding. -/
def oidOfString (s : String) : Option MongoObjectId :=
  match s.data with
  | [] => none
  | c :: cs =>
      if (c :: cs).all (fun ch => decide (ch = 'x')) then some ⟨cs.length⟩
      else none

/-- The `_id` of a stored document: `string | ObjectId` in the source. -/
inductive MongoId where
  | str (s : String)
  | oid (o : MongoObjectId)
deriving DecidableEq

/-- `.toString()` on an `_id` value: a string is itself, an ObjectId yields
its string form. -/
def MongoId.toStringForm : MongoId → String
  | .str s => s
  | .oid o => oidToString o

/-- A concrete document type instantiating the repository's type parameter
`T extends Document & { _id: string | ObjectId }`: an `_id` plus two payload
fields. -/
structure Person where
  _id : MongoId
  name : String
  age : Nat
deriving DecidableEq

/-- A document collection: the stored documents in insertion order, plus the
generator state for fresh native identifiers (`new ObjectId()` yields an
identifier not in use; freshness of `nextOid` is a hypothesis where
needed). -/
structure MCollection where
  docs : List Person
  nextOid : Nat
deriving DecidableEq

/-- `Partial<Person>`: the payload fields present in a partial entity (an
`_id` field is never part of a `$set` patch — the store rejects `_id`
modification). -/
structure PersonPatch where
  name : Option String
  age : Option Nat
deriving DecidableEq

/-- The effect of `$set` with the present fields of the patch on one
document: present fields are replaced, absent fields keep their prior
value. -/
def applySet (p : PersonPatch) (d : Person) : Person :=
  { d with name := p.name.getD d.name, age := p.age.getD d.age }

/-- The raw outcome of the store's `updateOne` (matched/modified counts). -/
structure MongoUpdateOutcome where
  matchedCount : Nat
  modifiedCount : Nat
deriving DecidableEq

/-- The InvalidIdentifier condition raised by `new ObjectId(id)` on a
malformed string. -/
inductive MongoError where
  | invalidId
deriving DecidableEq

/-- The store's `updateOne({_id}, {$set})` document walk: patch the first
document whose `_id` equals the native identifier, returning the new
document list and the matched/modified counts (a document counts as
modified only when `$set` actually changed it). -/
def updateDocs (o : MongoObjectId) (p : PersonPatch) :
    List Person → List Person × Nat × Nat
  | [] => ([], 0, 0)
  | d :: rest =>
      if d._id = MongoId.oid o then
        (applySet p d :: rest, 1, if applySet p d = d then 0 else 1)
      else
        (d :: (updateDocs o p rest).1,
          (updateDocs o p rest).2.1, (updateDocs o p rest).2.2)

/-- `getById(id)`: builds a native-identifier filter from the string id
(InvalidIdentifier on a malformed string), takes the first matching document
and normalizes its `_id` to string form. -/
def MongodbRepository.getById (id : String) (c : MCollection) :
    Except MongoError (Option Person) :=
  match oidOfString id with
  | none => .error .invalidId
  | some o =>
      .ok ((c.docs.find? (fun d => decide (d._id = MongoId.oid o))).map
        (fun d => { d with _id := MongoId.str d._id.toStringForm }))

/-- `create(obj)`: generates a fresh native identifier (any pre-existing
identifier on `obj` is overwritten), assigns it, inserts the document, and
returns the document with the identifier set in native form. -/
def MongodbRepository.create (obj : Person) (c : MCollection) :
    Person × MCollection :=
  let newDoc := { obj with _id := MongoId.oid ⟨c.nextOid⟩ }
  (newDoc, { docs := c.docs ++ [newDoc], nextOid := c.nextOid + 1 })

/-- `updateOne(objId, obj)`: converts the string id to a native-identifier
filter and applies `$set` with the present fields of the partial entity to
the first matching document, returning the store's raw update outcome
rather than the entity. -/
def MongodbRepository.updateOne (objId : String) (p : PersonPatch)
    (c : MCollection) : Except MongoError (MongoUpdateOutcome × MCollection) :=
  match oidOfString objId with
  | none => .error .invalidId
  | some o =>
      let r := updateDocs o p c.docs
      .ok ({ matchedCount := r.2.1, modifiedCount := r.2.2 },
        { docs := r.1, nextOid := c.nextOid })

/- ### Basic store lemmas -/

theorem kvGet_kvSet_same {T : Type} (k : KvKey) (v : T) (s : KvStore T) :
    kvGet k (kvSet k v s) = some v := by
  induction s with
  | nil => simp [kvSet, kvGet]
  | cons e rest ih =>
      by_cases h : e.1 = k
      · simp [kvSet, h, kvGet]
      · simp [kvSet, h, kvGet, ih]

theorem kvGet_kvSet_other {T : Type} {k k2 : KvKey} (v : T) (s : KvStore T)
    (hne : k2 ≠ k) : kvGet k2 (kvSet k v s) = kvGet k2 s := by
  induction s with
  | nil => simp [kvSet, kvGet, Ne.symm hne]
  | cons e rest ih =>
      by_cases h : e.1 = k
      · simp [kvSet, h, kvGet, Ne.symm hne]
      · simp [kvSet, h, kvGet, ih]

theorem kvGet_kvDelete_same {T : Type} (k : KvKey) (s : KvStore T) :
    kvGet k (kvDelete k s) = none := by
  induction s with
  | nil => simp [kvDelete, kvGet]
  | cons e rest ih =>
      by_cases h : e.1 = k
      · simp [kvDelete, h, ih]
      · simp [kvDelete, h, kvGet, ih]

theorem kvGet_kvDelete_other {T : Type} {k k2 : KvKey} (s : KvStore T)
    (hne : k2 ≠ k) : kvGet k2 (kvDelete k s) = kvGet k2 s := by
  induction s with
  | nil => simp [kvDelete, kvGet]
  | cons e rest ih =>
      by_cases h : e.1 = k
      · simp [kvDelete, h, kvGet, Ne.symm hne, ih]
      · simp [kvDelete, h, kvGet, ih]

/- ### Transaction lemmas: all-sets and all-deletes transactions -/

theorem setAll_cons {T : Type} (k : KvKey) (ks : List KvKey) (v : T) :
    setAll (k :: ks) v = KvMutation.set k v :: setAll ks v := rfl

theorem delAll_cons {T : Type} (k : KvKey) (ks : List KvKey) :
    delAll (k :: ks) (T := T) = KvMutation.del k :: delAll ks := rfl

theorem applyMuts_cons {T : Type} (m : KvMutation T) (ms : List (KvMutation T))
    (s : KvStore T) : applyMuts (m :: ms) s = applyMuts ms (applyMut m s) := rfl

theorem applyMut_set {T : Type} (k : KvKey) (v : T) (s : KvStore T) :
    applyMut (KvMutation.set k v) s = kvSet k v s := rfl

theorem applyMut_del {T : Type} (k : KvKey) (s : KvStore T) :
    applyMut (KvMutation.del k) s = kvDelete k s := rfl

theorem kvGet_setAll_not_mem {T : Type} {k : KvKey} {ks : List KvKey} (v : T)
    (s : KvStore T) (h : k ∉ ks) :
    kvGet k (applyMuts (setAll ks v) s) = kvGet k s := by
  induction ks generalizing s with
  | nil => simp [setAll, applyMuts]
  | cons k1 rest ih =>
      simp only [List.mem_cons, not_or] at h
      rw [setAll_cons, applyMuts_cons, applyMut_set, ih _ h.2,
        kvGet_kvSet_other _ _ h.1]

theorem kvGet_setAll_mem {T : Type} {k : KvKey} {ks : List KvKey} (v : T)
    (s : KvStore T) (h : k ∈ ks) :
    kvGet k (applyMuts (setAll ks v) s) = some v := by
  induction ks generalizing s with
  | nil => cases h
  | cons k1 rest ih =>
      rw [setAll_cons, applyMuts_cons, applyMut_set]
      by_cases hr : k ∈ rest
      · exact ih _ hr
      · have hk : k = k1 := by
          rcases List.mem_cons.mp h with h1 | h1
          · exact h1
          · exact absurd h1 hr
        rw [kvGet_setAll_not_mem v _ hr, hk, kvGet_kvSet_same]

theorem kvGet_delAll_not_mem {T : Type} {k : KvKey} {ks : List KvKey}
    (s : KvStore T) (h : k ∉ ks) :
    kvGet k (applyMuts (delAll ks (T := T)) s) = kvGet k s := by
  induction ks generalizing s with
  | nil => simp [delAll, applyMuts]
  | cons k1 rest ih =>
      simp only [List.mem_cons, not_or] at h
      rw [delAll_cons, applyMuts_cons, applyMut_del, ih _ h.2,
        kvGet_kvDelete_other _ h.1]

theorem kvGet_delAll_mem {T : Type} {k : KvKey} {ks : List KvKey}
    (s : KvStore T) (h : k ∈ ks) :
    kvGet k (applyMuts (delAll ks (T := T)) s) = none := by
  induction ks generalizing s with
  | nil => cases h
  | cons k1 rest ih =>
      rw [delAll_cons, applyMuts_cons, applyMut_del]
      by_cases hr : k ∈ rest
      · exact ih _ hr
      · have hk : k = k1 := by
          rcases List.mem_cons.mp h with h1 | h1
          · exact h1
          · exact absurd h1 hr
        rw [kvGet_delAll_not_mem _ hr, hk, kvGet_kvDelete_same]

/- ### Lemmas about a fold of single-key deletions (the `deleteAll` loop) -/

theorem kvGet_foldDelete_none {T : Type} {k : KvKey} (L : List (KvKey × T))
    (s0 : KvStore T) (h : kvGet k s0 = none) :
    kvGet k (L.foldl (fun acc e => kvDelete e.1 acc) s0) = none := by
  induction L generalizing s0 with
  | nil => exact h
  | cons e rest ih =>
      simp only [List.foldl_cons]
      apply ih
      by_cases he : e.1 = k
      · rw [he, kvGet_kvDelete_same]
      · rw [kvGet_kvDelete_other _ (Ne.symm he)]
        exact h

theorem kvGet_foldDelete_not_mem {T : Type} {k : KvKey} (L : List (KvKey × T))
    (s0 : KvStore T) (h : ∀ e ∈ L, e.1 ≠ k) :
    kvGet k (L.foldl (fun acc e => kvDelete e.1 acc) s0) = kvGet k s0 := by
  induction L generalizing s0 with
  | nil => rfl
  | cons e rest ih =>
      simp only [List.foldl_cons]
      rw [ih _ (fun e2 h2 => h e2 (List.mem_cons_of_mem _ h2)),
        kvGet_kvDelete_other _ (Ne.symm (h e (List.mem_cons_self _ _)))]

theorem kvGet_foldDelete_mem {T : Type} {k : KvKey} (L : List (KvKey × T))
    (s0 : KvStore T) (h : ∃ e ∈ L, e.1 = k) :
    kvGet k (L.foldl (fun acc e => kvDelete e.1 acc) s0) = none := by
  induction L generalizing s0 with
  | nil =>
      rcases h with ⟨e, he, _⟩
      exact absurd he (List.not_mem_nil _)
  | cons e rest ih =>
      simp only [List.foldl_cons]
      by_cases he : e.1 = k
      · apply kvGet_foldDelete_none
        rw [he, kvGet_kvDelete_same]
      · rcases h with ⟨e2, h2, hk⟩
        rcases List.mem_cons.mp h2 with h3 | h3
        · exact absurd (h3 ▸ hk) he
        · exact ih _ ⟨e2, h3, hk⟩

theorem kvGet_some_mem {T : Type} {k : KvKey} {v : T} {s : KvStore T}
    (h : kvGet k s = some v) : (k, v) ∈ s := by
  induction s with
  | nil => simp [kvGet] at h
  | cons e rest ih =>
      obtain ⟨k1, v1⟩ := e
      by_cases he : k1 = k
      · subst he
        simp [kvGet] at h
        subst h
        exact List.mem_cons_self _ _
      · simp only [kvGet, if_neg he] at h
        exact List.mem_cons_of_mem _ (ih h)

/- ### The effect of `deleteAll` on lookups -/

theorem kvGet_deleteAll {T : Type} (R : KvRepo T) (s : KvStore T) (k : KvKey) :
    kvGet k (KvRepository.deleteAll R s) =
      if keyHasPrefix [R.collectionName] k = true then none else kvGet k s := by
  unfold KvRepository.deleteAll
  by_cases hp : keyHasPrefix [R.collectionName] k = true
  · rw [if_pos hp]
    cases hg : kvGet k s with
    | none => exact kvGet_foldDelete_none _ _ hg
    | some v =>
        apply kvGet_foldDelete_mem
        refine ⟨(k, v), ?_, rfl⟩
        exact List.mem_filter.mpr ⟨kvGet_some_mem hg, hp⟩
  · rw [if_neg hp]
    apply kvGet_foldDelete_not_mem
    intro e he hk
    exact hp (hk ▸ (List.mem_filter.mp he).2)

/- ### The store produced by a fresh all-sets transaction -/

theorem kvGet_append_none {T : Type} {k : KvKey} {s : KvStore T} (t : KvStore T)
    (h : kvGet k s = none) : kvGet k (s ++ t) = kvGet k t := by
  induction s with
  | nil => rfl
  | cons e rest ih =>
      by_cases he : e.1 = k
      · simp [kvGet, he] at h
      · simp only [kvGet, if_neg he] at h
        simp only [List.cons_append, kvGet, if_neg he]
        exact ih h

theorem kvSet_fresh_append {T : Type} {k : KvKey} (v : T) {s : KvStore T}
    (h : kvGet k s = none) : kvSet k v s = s ++ [(k, v)] := by
  induction s with
  | nil => rfl
  | cons e rest ih =>
      by_cases he : e.1 = k
      · simp [kvGet, he] at h
      · simp only [kvGet, if_neg he] at h
        simp only [kvSet, if_neg he, List.cons_append]
        rw [ih h]

theorem applyMuts_setAll_fresh {T : Type} (ks : List KvKey) (v : T) (s : KvStore T)
    (hnd : ks.Nodup) (hfresh : ∀ k ∈ ks, kvGet k s = none) :
    applyMuts (setAll ks v) s = s ++ ks.map (fun k => (k, v)) := by
  induction ks generalizing s with
  | nil => simp [setAll, applyMuts]
  | cons k1 rest ih =>
      rw [setAll_cons, applyMuts_cons, applyMut_set,
        kvSet_fresh_append v (hfresh k1 (List.mem_cons_self _ _))]
      rw [List.nodup_cons] at hnd
      rw [ih _ hnd.2]
      · simp
      · intro k hk
        rw [kvGet_append_none _ (hfresh k (List.mem_cons_of_mem _ hk))]
        have hne : k1 ≠ k := fun h => hnd.1 (h ▸ hk)
        simp [kvGet, hne]

/- ### Keys of a repository transaction -/

theorem primary_mem_txKeys {T : Type} (R : KvRepo T) (item : T) :
    [R.collectionName, R.idOf item] ∈ txKeys R item :=
  List.mem_cons_self _ _

theorem secondary_mem_txKeys {T : Type} (R : KvRepo T) (item : T)
    {p : String × KvKey} (hp : p ∈ R.getSecondaryKeys item) :
    p.2 ∈ txKeys R item :=
  List.mem_cons_of_mem _ (List.mem_map.mpr ⟨p, hp, rfl⟩)

/- ### Claim theorems: KV repository -/

/-- C1: in the spec's concrete scenario (collection `"users"`, secondary
index on `"email"`), `create({_id:"u1", email:"a@x.com"})` followed by
`updateOne("u1", {_id:"u1", email:"b@x.com"})` does NOT restore the index
consistency invariant: the primary key and the new secondary key hold the
updated record, but the stale secondary key derived from `"a@x.com"` is
still present and still maps to the old record — `updateOne` never deletes
the secondary keys of the previous version. -/
theorem kv_update_stale_secondary_key_persists :
    KvRepository.getById userRepo "u1"
        (KvRepository.updateOne userRepo "u1" ⟨"u1", "b@x.com"⟩
          (KvRepository.create userRepo ⟨"u1", "a@x.com"⟩ [] true).2 true).2
      = some ⟨"u1", "b@x.com"⟩ ∧
    kvGet ["users", "email", "b@x.com"]
        (KvRepository.updateOne userRepo "u1" ⟨"u1", "b@x.com"⟩
          (KvRepository.create userRepo ⟨"u1", "a@x.com"⟩ [] true).2 true).2
      = some ⟨"u1", "b@x.com"⟩ ∧
    kvGet ["users", "email", "a@x.com"]
        (KvRepository.updateOne userRepo "u1" ⟨"u1", "b@x.com"⟩
          (KvRepository.create userRepo ⟨"u1", "a@x.com"⟩ [] true).2 true).2
      = some ⟨"u1", "a@x.com"⟩ := by decide

/-- C2 (counterexample): for the entity `{_id:"", email:"a@x.com"}` the
claim fails: after `create`, the primary key `["users", ""]` and the
secondary key both map to the entity, but `getById("")` returns absent
because of the falsy-id guard, so `getById(e._id)` and the secondary-key
lookup do not return identical values. -/
theorem kv_create_empty_id_counterexample :
    kvGet ["users", ""]
        (KvRepository.create userRepo ⟨"", "a@x.com"⟩ [] true).2
      = some ⟨"", "a@x.com"⟩ ∧
    kvGet ["users", "email", "a@x.com"]
        (KvRepository.create userRepo ⟨"", "a@x.com"⟩ [] true).2
      = some ⟨"", "a@x.com"⟩ ∧
    KvRepository.getById userRepo ""
        (KvRepository.create userRepo ⟨"", "a@x.com"⟩ [] true).2
      = none := by decide

/-- C2 (amended): for every entity whose `_id` is nonempty, after a
successful `create` the primary key `[collection, e._id]` and every
secondary key of `getSecondaryKeys(e)` map to the identical entity value,
and `getById(e._id)` returns that same value. -/
theorem kv_create_index_consistency {T : Type} (R : KvRepo T) (item : T)
    (s : KvStore T) (hid : R.idOf item ≠ "") :
    kvGet [R.collectionName, R.idOf item]
        (KvRepository.create R item s true).2 = some item ∧
    KvRepository.getById R (R.idOf item)
        (KvRepository.create R item s true).2 = some item ∧
    ∀ p ∈ R.getSecondaryKeys item,
      kvGet p.2 (KvRepository.create R item s true).2 = some item := by
  have hstore : (KvRepository.create R item s true).2
      = applyMuts (setAll (txKeys R item) item) s := rfl
  refine ⟨?_, ?_, ?_⟩
  · rw [hstore]
    exact kvGet_setAll_mem item s (primary_mem_txKeys R item)
  · simp only [KvRepository.getById, if_neg hid]
    rw [hstore]
    exact kvGet_setAll_mem item s (primary_mem_txKeys R item)
  · intro p hp
    rw [hstore]
    exact kvGet_setAll_mem item s (secondary_mem_txKeys R item hp)

/-- C2 (witness): the amended theorem applied to the spec's concrete
scenario. -/
theorem kv_create_index_consistency_witness :
    userRepo.idOf ⟨"u1", "a@x.com"⟩ ≠ "" ∧
    (kvGet ["users", "u1"]
        (KvRepository.create userRepo ⟨"u1", "a@x.com"⟩ [] true).2
      = some ⟨"u1", "a@x.com"⟩ ∧
    KvRepository.getById userRepo (userRepo.idOf ⟨"u1", "a@x.com"⟩)
        (KvRepository.create userRepo ⟨"u1", "a@x.com"⟩ [] true).2
      = some ⟨"u1", "a@x.com"⟩ ∧
    ∀ p ∈ userRepo.getSecondaryKeys ⟨"u1", "a@x.com"⟩,
      kvGet p.2 (KvRepository.create userRepo ⟨"u1", "a@x.com"⟩ [] true).2
        = some ⟨"u1", "a@x.com"⟩) :=
  ⟨by decide, kv_create_index_consistency userRepo ⟨"u1", "a@x.com"⟩ [] (by decide)⟩

/-- C3 (counterexample): for `id = ""` with an entity stored at
`["users", ""]`, `deleteOne("")` is a no-op even though an entity is stored
at the primary key — `getById` hides it behind the falsy-id guard — so the
primary entry and the secondary key both survive, contradicting the claim
that the delete happens whenever an entity is stored at `[collection, id]`. -/
theorem kv_deleteOne_empty_id_counterexample :
    kvGet ["users", ""]
        (KvRepository.create userRepo ⟨"", "a@x.com"⟩ [] true).2
      = some ⟨"", "a@x.com"⟩ ∧
    (KvRepository.deleteOne userRepo ""
        (KvRepository.create userRepo ⟨"", "a@x.com"⟩ [] true).2 true).2
      = (KvRepository.create userRepo ⟨"", "a@x.com"⟩ [] true).2 ∧
    kvGet ["users", "email", "a@x.com"]
        (KvRepository.deleteOne userRepo ""
          (KvRepository.create userRepo ⟨"", "a@x.com"⟩ [] true).2 true).2
      = some ⟨"", "a@x.com"⟩ := by decide

/-- C3 (amended): `deleteOne(id)` is a no-op exactly when `getById(id)` is
absent (which happens both when nothing is stored at `[collection, id]` and
when `id` is the empty string).  Otherwise, with `item` the stored entity
and provided `item._id = id` (which holds for every primary entry written by
`create`/`updateOne` under its own id), the committed transaction deletes
the primary key and every secondary key derived from `item`, so `getById(id)`
is absent afterwards and every secondary key of the stored item is absent. -/
theorem kv_deleteOne_completeness {T : Type} (R : KvRepo T) (id : String)
    (s : KvStore T) :
    (KvRepository.getById R id s = none →
      KvRepository.deleteOne R id s true = (.ok (), s)) ∧
    (∀ item, KvRepository.getById R id s = some item → R.idOf item = id →
      KvRepository.getById R id (KvRepository.deleteOne R id s true).2 = none ∧
      ∀ p ∈ R.getSecondaryKeys item,
        kvGet p.2 (KvRepository.deleteOne R id s true).2 = none) := by
  constructor
  · intro h
    simp [KvRepository.deleteOne, h]
  · intro item hit hid
    have hne : id ≠ "" := by
      intro h0
      simp [KvRepository.getById, h0] at hit
    have hstore : (KvRepository.deleteOne R id s true).2
        = applyMuts (delAll (txKeys R item)) s := by
      simp [KvRepository.deleteOne, hit]
    constructor
    · simp only [KvRepository.getById, if_neg hne]
      rw [hstore, ← hid]
      exact kvGet_delAll_mem s (primary_mem_txKeys R item)
    · intro p hp
      rw [hstore]
      exact kvGet_delAll_mem s (secondary_mem_txKeys R item hp)

/-- C3 (witness): deleting `"u1"` right after creating it removes the
primary entry and the email secondary key. -/
theorem kv_deleteOne_completeness_witness :
    KvRepository.getById userRepo "u1"
        (KvRepository.deleteOne userRepo "u1"
          (KvRepository.create userRepo ⟨"u1", "a@x.com"⟩ [] true).2 true).2
      = none ∧
    kvGet ["users", "email", "a@x.com"]
        (KvRepository.deleteOne userRepo "u1"
          (KvRepository.create userRepo ⟨"u1", "a@x.com"⟩ [] true).2 true).2
      = none := by
  have h := (kv_deleteOne_completeness userRepo "u1"
      (KvRepository.create userRepo ⟨"u1", "a@x.com"⟩ [] true).2).2
    ⟨"u1", "a@x.com"⟩ (by decide) (by decide)
  exact ⟨h.1, h.2 ("email", ["users", "email", "a@x.com"]) (by decide)⟩

/-- C4 (counterexample): after creating the scenario user, `deleteAll` also
removes the secondary-key entry `["users", "email", "a@x.com"]`, contradicting
the claim that the secondary keys associated with the deleted entities remain
in the store: `list({prefix: [collection]})` enumerates every entry whose key
begins with the collection name, and the spec's `[collection, field, value]`
secondary keys do. -/
theorem kv_deleteAll_secondary_key_counterexample :
    kvGet ["users", "email", "a@x.com"]
        (KvRepository.deleteAll userRepo
          (KvRepository.create userRepo ⟨"u1", "a@x.com"⟩ [] true).2)
      = none ∧
    kvGet ["users", "u1"]
        (KvRepository.deleteAll userRepo
          (KvRepository.create userRepo ⟨"u1", "a@x.com"⟩ [] true).2)
      = none := by decide

/-- C4 (amended): `deleteAll()` iterates all entries whose key has the
collection name as prefix and deletes each one individually (unbatched, one
delete per entry, not atomic across entries); this removes every entry with
the collection prefix — primary entries and any secondary-key entry whose
key begins with the collection name, such as the spec's
`[collection, field, value]` keys — while entries without the collection
prefix (in particular any secondary key not starting with the collection
name) are left unchanged. -/
theorem kv_deleteAll_effect {T : Type} (R : KvRepo T) (s : KvStore T)
    (k : KvKey) :
    kvGet k (KvRepository.deleteAll R s) =
      if keyHasPrefix [R.collectionName] k = true then none else kvGet k s :=
  kvGet_deleteAll R s k

/-- C5: `create` commits one atomic transaction; when the store reports the
transaction did not apply, `create` raises the create-failed error and the
store state is returned unchanged — no key was written; when the commit
applies, `create` returns the input entity unchanged, and the primary key
holds it. -/
theorem kv_create_atomic_commit {T : Type} (R : KvRepo T) (item : T)
    (s : KvStore T) :
    KvRepository.create R item s false = (.error .createFailed, s) ∧
    (∀ k, kvGet k (KvRepository.create R item s false).2 = kvGet k s) ∧
    (KvRepository.create R item s true).1 = .ok item ∧
    kvGet [R.collectionName, R.idOf item]
        (KvRepository.create R item s true).2 = some item := by
  refine ⟨rfl, fun k => rfl, rfl, ?_⟩
  exact kvGet_setAll_mem item s (primary_mem_txKeys R item)

/-- C6: `deleteOne` discards the commit result: whatever the commit outcome
and whether or not the entity exists, it returns normally with the same
outcome, so a failed delete is indistinguishable from a successful one by
the operation's result; on a failed commit the store is unchanged. -/
theorem kv_deleteOne_never_raises {T : Type} (R : KvRepo T) (id : String)
    (s : KvStore T) (commitOk : Bool) :
    (KvRepository.deleteOne R id s commitOk).1 = .ok () ∧
    (KvRepository.deleteOne R id s commitOk).1
      = (KvRepository.deleteOne R id s true).1 ∧
    (KvRepository.deleteOne R id s false).2 = s := by
  refine ⟨?_, ?_, ?_⟩
  · unfold KvRepository.deleteOne
    cases KvRepository.getById R id s with
    | none => rfl
    | some item => cases commitOk <;> rfl
  · unfold KvRepository.deleteOne
    cases KvRepository.getById R id s with
    | none => rfl
    | some item => cases commitOk <;> rfl
  · unfold KvRepository.deleteOne
    cases KvRepository.getById R id s with
    | none => rfl
    | some item => rfl

/-- C9 (counterexample): nothing constrains the shape of the keys a
`getSecondaryKeys` override returns, so a secondary key may coincide with
`[collection, itemId]`: for `collidingRepo`, `updateOne("zz", {_id:"u1", ...})`
with `item._id ≠ "zz"` overwrites the entry stored at `["users", "zz"]`,
contradicting the claim that the entry at `[collection, itemId]` is left
unchanged in every such call. -/
theorem kv_updateOne_colliding_secondary_counterexample :
    kvGet ["users", "zz"]
        (KvRepository.updateOne collidingRepo "zz" ⟨"u1", "x@x.com"⟩
          [(["users", "zz"], ⟨"old", "o@x.com"⟩)] true).2
      = some ⟨"u1", "x@x.com"⟩ := by decide

/-- C9 (amended): whenever `item._id ≠ itemId` and `[collection, itemId]` is
not among the secondary keys of the new entity (as with the spec's
three-segment `[collection, field, value]` keys), `updateOne(itemId, item)`
leaves the entry at `[collection, itemId]` unchanged and performs its write
under the new entity's own id instead: the primary key `[collection, item._id]`
and every secondary key of `item` hold the written value. -/
theorem kv_updateOne_writes_under_new_id {T : Type} (R : KvRepo T)
    (itemId : String) (item : T) (s : KvStore T)
    (hid : R.idOf item ≠ itemId)
    (hsk : [R.collectionName, itemId] ∉ (R.getSecondaryKeys item).map
      (fun p => p.2)) :
    kvGet [R.collectionName, itemId]
        (KvRepository.updateOne R itemId item s true).2
      = kvGet [R.collectionName, itemId] s ∧
    kvGet [R.collectionName, R.idOf item]
        (KvRepository.updateOne R itemId item s true).2 = some item ∧
    ∀ p ∈ R.getSecondaryKeys item,
      kvGet p.2 (KvRepository.updateOne R itemId item s true).2 = some item := by
  have hstore : (KvRepository.updateOne R itemId item s true).2
      = applyMuts (setAll (txKeys R item) item) s := rfl
  refine ⟨?_, ?_, ?_⟩
  · rw [hstore]
    apply kvGet_setAll_not_mem
    intro hmem
    rcases List.mem_cons.mp hmem with h1 | h1
    · injection h1 with _ h2
      injection h2 with h3 _
      exact hid h3.symm
    · exact hsk h1
  · rw [hstore]
    exact kvGet_setAll_mem item s (primary_mem_txKeys R item)
  · intro p hp
    rw [hstore]
    exact kvGet_setAll_mem item s (secondary_mem_txKeys R item hp)

/-- C9 (witness): updating under `"u1"` with a new entity whose id is `"u2"`
leaves `["users", "u1"]` at its prior value and writes under `"u2"`. -/
theorem kv_updateOne_writes_under_new_id_witness :
    userRepo.idOf ⟨"u2", "b@x.com"⟩ ≠ "u1" ∧
    ["users", "u1"] ∉ (userRepo.getSecondaryKeys ⟨"u2", "b@x.com"⟩).map
      (fun p => p.2) ∧
    (kvGet ["users", "u1"]
        (KvRepository.updateOne userRepo "u1" ⟨"u2", "b@x.com"⟩
          (KvRepository.create userRepo ⟨"u1", "a@x.com"⟩ [] true).2 true).2
      = kvGet ["users", "u1"]
          (KvRepository.create userRepo ⟨"u1", "a@x.com"⟩ [] true).2 ∧
    kvGet ["users", "u2"]
        (KvRepository.updateOne userRepo "u1" ⟨"u2", "b@x.com"⟩
          (KvRepository.create userRepo ⟨"u1", "a@x.com"⟩ [] true).2 true).2
      = some ⟨"u2", "b@x.com"⟩ ∧
    ∀ p ∈ userRepo.getSecondaryKeys ⟨"u2", "b@x.com"⟩,
      kvGet p.2
          (KvRepository.updateOne userRepo "u1" ⟨"u2", "b@x.com"⟩
            (KvRepository.create userRepo ⟨"u1", "a@x.com"⟩ [] true).2 true).2
        = some ⟨"u2", "b@x.com"⟩) :=
  ⟨by decide, by decide,
    kv_updateOne_writes_under_new_id userRepo "u1" ⟨"u2", "b@x.com"⟩
      (KvRepository.create userRepo ⟨"u1", "a@x.com"⟩ [] true).2
      (by decide) (by decide)⟩

/-- Values selected from a constant-valued entry list by a key-prefix
filter: one copy of the value per key passing the filter. -/
theorem kvList_const_values {T : Type} (p : KvKey) (v : T) (ks : List KvKey) :
    ((ks.map (fun k => (k, v))).filter
        (fun e => keyHasPrefix p e.1)).map (fun e => e.2)
      = List.replicate ((ks.filter (fun k => keyHasPrefix p k)).length) v := by
  induction ks with
  | nil => rfl
  | cons k rest ih =>
      by_cases hk : keyHasPrefix p k = true
      · simp [List.filter_cons, hk, ih, List.replicate_succ]
      · simp [List.filter_cons, hk, ih]

/-- C10: `getAll()` returns the value of every store entry whose key begins
with the collection name, with no deduplication and no restriction to
primary keys: creating `item` in the empty store (with pairwise distinct
transaction keys) makes `item` appear in `getAll` once for the primary key
plus once per secondary key that begins with the collection name. -/
theorem kv_getAll_counts_secondary_copies {T : Type} [DecidableEq T]
    (R : KvRepo T) (item : T) (hnd : (txKeys R item).Nodup) :
    (KvRepository.getAll R (KvRepository.create R item [] true).2).count item
      = 1 + (((R.getSecondaryKeys item).map (fun p => p.2)).filter
          (fun k => keyHasPrefix [R.collectionName] k)).length := by
  have hstore : (KvRepository.create R item [] true).2
      = applyMuts (setAll (txKeys R item) item) [] := rfl
  rw [hstore, applyMuts_setAll_fresh (txKeys R item) item [] hnd (fun k _ => rfl)]
  unfold KvRepository.getAll kvList
  simp only [List.nil_append]
  rw [kvList_const_values, List.count_replicate_self]
  unfold txKeys
  rw [List.filter_cons]
  have hp : keyHasPrefix [R.collectionName]
      [R.collectionName, R.idOf item] = true := by
    simp [keyHasPrefix]
  rw [if_pos hp, List.length_cons, Nat.add_comm]

/-- C10 (witness): in the concrete scenario the created user appears twice
in `getAll` — once under the primary key, once under the email secondary
key. -/
theorem kv_getAll_counts_secondary_copies_witness :
    (txKeys userRepo ⟨"u1", "a@x.com"⟩).Nodup ∧
    (KvRepository.getAll userRepo
        (KvRepository.create userRepo ⟨"u1", "a@x.com"⟩ [] true).2).count
        ⟨"u1", "a@x.com"⟩
      = 1 + (((userRepo.getSecondaryKeys ⟨"u1", "a@x.com"⟩).map (fun p => p.2)).filter
          (fun k => keyHasPrefix [userRepo.collectionName] k)).length :=
  ⟨by decide,
    kv_getAll_counts_secondary_copies userRepo ⟨"u1", "a@x.com"⟩ (by decide)⟩

/- ### Document repository lemmas -/

theorem oid_roundtrip (o : MongoObjectId) :
    oidOfString (oidToString o) = some o := by
  have hdata : (oidToString o).data = 'x' :: List.replicate o.n 'x' := by
    simp [oidToString, List.replicate_succ]
  have hall : (('x' :: List.replicate o.n 'x').all
      (fun ch => decide (ch = 'x'))) = true := by
    simp [List.all_eq_true]
  unfold oidOfString
  rw [hdata]
  dsimp only
  rw [if_pos hall, List.length_replicate]

theorem updateDocs_no_match (o : MongoObjectId) (p : PersonPatch)
    (L : List Person) (h : ∀ d ∈ L, d._id ≠ MongoId.oid o) :
    updateDocs o p L = (L, 0, 0) := by
  induction L with
  | nil => rfl
  | cons d rest ih =>
      have hd : ¬ d._id = MongoId.oid o := h d (List.mem_cons_self _ _)
      simp only [updateDocs, if_neg hd]
      rw [ih (fun d2 h2 => h d2 (List.mem_cons_of_mem _ h2))]

theorem updateDocs_append_first_match (o : MongoObjectId) (p : PersonPatch)
    (pre post : List Person) (d : Person)
    (hpre : ∀ d2 ∈ pre, d2._id ≠ MongoId.oid o)
    (hd : d._id = MongoId.oid o) :
    updateDocs o p (pre ++ d :: post)
      = (pre ++ applySet p d :: post, 1,
        if applySet p d = d then 0 else 1) := by
  induction pre with
  | nil =>
      simp only [List.nil_append, updateDocs, if_pos hd]
  | cons d2 rest ih =>
      have h2 : ¬ d2._id = MongoId.oid o := hpre d2 (List.mem_cons_self _ _)
      simp only [List.cons_append, updateDocs, if_neg h2, List.append_eq]
      rw [ih (fun d3 h3 => hpre d3 (List.mem_cons_of_mem _ h3))]

/- ### Claim theorems: document repository -/

/-- C7: `create(e)` generates a fresh native identifier (any identifier
already on `e` is ignored), assigns it, inserts the document and returns it
with the identifier set; `getById` on the string form of that identifier
returns `e` with `_id` populated as the string form, and that string parses
back to the store-generated identifier. -/
theorem mongo_create_getById_roundtrip (c : MCollection) (e : Person)
    (hfresh : ∀ d ∈ c.docs, d._id ≠ MongoId.oid ⟨c.nextOid⟩) :
    (MongodbRepository.create e c).1
      = { e with _id := MongoId.oid ⟨c.nextOid⟩ } ∧
    MongodbRepository.getById (oidToString ⟨c.nextOid⟩)
        (MongodbRepository.create e c).2
      = .ok (some { e with _id := MongoId.str (oidToString ⟨c.nextOid⟩) }) ∧
    oidOfString (oidToString ⟨c.nextOid⟩) = some ⟨c.nextOid⟩ := by
  refine ⟨rfl, ?_, oid_roundtrip _⟩
  have hdocs : (MongodbRepository.create e c).2.docs
      = c.docs ++ [{ e with _id := MongoId.oid ⟨c.nextOid⟩ }] := rfl
  unfold MongodbRepository.getById
  rw [oid_roundtrip]
  dsimp only
  rw [hdocs, List.find?_append]
  have h1 : c.docs.find?
      (fun d => decide (d._id = MongoId.oid ⟨c.nextOid⟩)) = none := by
    rw [List.find?_eq_none]
    intro d hd
    simp only [decide_eq_true_eq]
    exact hfresh d hd
  have h2 : ([{ e with _id := MongoId.oid ⟨c.nextOid⟩ }] : List Person).find?
      (fun d => decide (d._id = MongoId.oid ⟨c.nextOid⟩))
      = some { e with _id := MongoId.oid ⟨c.nextOid⟩ } :=
    List.find?_cons_of_pos _ (by simp)
  rw [h1, h2]
  rfl

/-- C7 (witness): creating a person in the empty collection and reading it
back through the string form of the generated identifier. -/
theorem mongo_create_getById_roundtrip_witness :
    (∀ d ∈ (⟨[], 0⟩ : MCollection).docs, d._id ≠ MongoId.oid ⟨0⟩) ∧
    ((MongodbRepository.create ⟨MongoId.str "", "alice", 30⟩ ⟨[], 0⟩).1
      = { _id := MongoId.oid ⟨0⟩, name := "alice", age := 30 } ∧
    MongodbRepository.getById (oidToString ⟨0⟩)
        (MongodbRepository.create ⟨MongoId.str "", "alice", 30⟩ ⟨[], 0⟩).2
      = .ok (some { _id := MongoId.str (oidToString ⟨0⟩)
                    name := "alice"
                    age := 30 }) ∧
    oidOfString (oidToString ⟨0⟩) = some ⟨0⟩) :=
  ⟨by decide,
    mongo_create_getById_roundtrip ⟨[], 0⟩ ⟨MongoId.str "", "alice", 30⟩
      (by decide)⟩

/-- C8: `updateOne(id, partialEntity)` patches exactly the document matching
the native identifier built from `id`: applied to the first matching
document, `$set` replaces only the fields present in the patch and keeps
every other field (including `_id`) at its prior value; the operation
returns the store's raw matched/modified counts rather than the entity, and
a no-op update (no document with that identifier) returns counts 0/0 with
the collection unchanged — detectable only from those counts. -/
theorem mongo_updateOne_partial_patch (c : MCollection) (o : MongoObjectId)
    (p : PersonPatch) (pre post : List Person) (d : Person)
    (hdocs : c.docs = pre ++ d :: post)
    (hpre : ∀ d2 ∈ pre, d2._id ≠ MongoId.oid o)
    (hd : d._id = MongoId.oid o) :
    MongodbRepository.updateOne (oidToString o) p c
      = .ok ({ matchedCount := 1
               modifiedCount := if applySet p d = d then 0 else 1 },
        { docs := pre ++ applySet p d :: post, nextOid := c.nextOid }) ∧
    (applySet p d)._id = d._id ∧
    (p.name = none → (applySet p d).name = d.name) ∧
    (∀ v, p.name = some v → (applySet p d).name = v) ∧
    (p.age = none → (applySet p d).age = d.age) ∧
    (∀ v, p.age = some v → (applySet p d).age = v) ∧
    (∀ c2 : MCollection, (∀ d2 ∈ c2.docs, d2._id ≠ MongoId.oid o) →
      MongodbRepository.updateOne (oidToString o) p c2
        = .ok ({ matchedCount := 0, modifiedCount := 0 }, c2)) := by
  refine ⟨?_, rfl, ?_, ?_, ?_, ?_, ?_⟩
  · unfold MongodbRepository.updateOne
    rw [oid_roundtrip]
    dsimp only
    rw [hdocs, updateDocs_append_first_match o p pre post d hpre hd]
  · intro h
    simp [applySet, h]
  · intro v h
    simp [applySet, h]
  · intro h
    simp [applySet, h]
  · intro v h
    simp [applySet, h]
  · intro c2 h2
    unfold MongodbRepository.updateOne
    rw [oid_roundtrip]
    dsimp only
    rw [updateDocs_no_match o p c2.docs h2]

/-- C8 (witness): patching the age of the second of two stored documents
leaves the other document and the name untouched and reports counts 1/1. -/
theorem mongo_updateOne_partial_patch_witness :
    MongodbRepository.updateOne (oidToString ⟨7⟩) ⟨none, some 31⟩
        ⟨[⟨MongoId.oid ⟨5⟩, "bob", 20⟩, ⟨MongoId.oid ⟨7⟩, "alice", 30⟩], 9⟩
      = .ok ({ matchedCount := 1
               modifiedCount :=
                 if applySet ⟨none, some 31⟩ ⟨MongoId.oid ⟨7⟩, "alice", 30⟩
                     = ⟨MongoId.oid ⟨7⟩, "alice", 30⟩ then 0 else 1 },
        { docs := [⟨MongoId.oid ⟨5⟩, "bob", 20⟩]
            ++ applySet ⟨none, some 31⟩ ⟨MongoId.oid ⟨7⟩, "alice", 30⟩ :: []
          nextOid := 9 }) :=
  (mongo_updateOne_partial_patch
    ⟨[⟨MongoId.oid ⟨5⟩, "bob", 20⟩, ⟨MongoId.oid ⟨7⟩, "alice", 30⟩], 9⟩
    ⟨7⟩ ⟨none, some 31⟩ [⟨MongoId.oid ⟨5⟩, "bob", 20⟩] []
    ⟨MongoId.oid ⟨7⟩, "alice", 30⟩ rfl (by decide) rfl).1
